import Mathlib

/-!
Verification of the real-time audio orchestration core of `stark-jr.v0.5.py`:
the voice-activity-gated capture state machine (`JarvisEars.listen`), the
response segmenter (the streaming loop in `main`), and the speech queue
engine with its interrupt controller (`JarvisMouth`).

Python text is embedded as `List Char`; rational numbers stand in for the
floating-point sample and time values; exceptions are embedded as `Except` /
explicit outcome values; the thread interleaving of the worker and the
interrupt controller is embedded as a small-step event semantics.
-/

namespace StarkJr

/-! ## Response Segmenter (main loop, lines 248-261)

The main loop accumulates chat deltas into `buffer`, and on seeing a
sentence-terminal character splits with `re.split(r'(?<=[.!?])\s+', buffer)`,
speaking every part but the last and keeping the last as the new buffer.
At end of stream the non-empty remainder is spoken. -/

/-- Sentence-terminal characters of the regex class `[.!?]`. -/
def isTerm (c : Char) : Bool :=
  c = '.' || c = '!' || c = '?'

/-- Python regex `\s` whitespace class (ASCII part, which is all the code
relies on): space, tab, newline, carriage return, vertical tab, form feed. -/
def isWs (c : Char) : Bool :=
  c = ' ' || c = '\t' || c = '\n' || c = '\r' || c = Char.ofNat 11 || c = Char.ofNat 12

/-- Embedding of `re.split(r'(?<=[.!?])\s+', s)`: scanning left to right, a
separator is a maximal whitespace run whose preceding character is one of
`.`, `!`, `?`.  `acc` holds the current part reversed; `skipping` is true
while consuming the whitespace run of a match. -/
def splitAux (skipping : Bool) (acc : List Char) : List Char → List (List Char)
  | [] => [acc.reverse]
  | c :: rest =>
    if skipping then
      if isWs c then splitAux true acc rest
      else splitAux false [c] rest
    else
      match acc with
      | p :: ps =>
        if isTerm p && isWs c then acc.reverse :: splitAux true [] rest
        else splitAux false (c :: p :: ps) rest
      | [] => splitAux false [c] rest

/-- `re.split(r'(?<=[.!?])\s+', s)` on a character list. -/
def splitSentences (cs : List Char) : List (List Char) :=
  splitAux false [] cs

/-- One iteration of the delta loop in `main` (lines 250-258): append the
delta to the buffer; if the buffer contains a terminal character, split it
and emit all parts but the last, keeping the last as the new buffer.
Returns (emitted sentence units, new buffer). -/
def procDelta (buf delta : List Char) : List (List Char) × List Char :=
  let b := buf ++ delta
  if b.any isTerm then
    let parts := splitSentences b
    (parts.dropLast, parts.getLastD [])
  else
    ([], b)

/-- Run the delta loop over a whole stream of deltas, collecting the emitted
sentence units and the final buffer. -/
def procStream (buf : List Char) : List (List Char) → List (List Char) × List Char
  | [] => ([], buf)
  | d :: ds =>
    let (out, b1) := procDelta buf d
    let (outs, b2) := procStream b1 ds
    (out ++ outs, b2)

/-- The full segmenter on a finite stream (lines 248-261): process every
delta, then at end of stream emit the remaining buffer if non-empty
(`if buffer: mouth.speak(buffer)`). -/
def segmentStream (deltas : List (List Char)) : List (List Char) :=
  let (out, b) := procStream [] deltas
  if b = [] then out else out ++ [b]

/-- String-level wrapper of the segmenter, for readable statements. -/
def segmentStrings (deltas : List String) : List String :=
  (segmentStream (deltas.map String.data)).map (fun cs => String.mk cs)

/-! ## Capture Gate (`JarvisEars.listen`, lines 44-95)

The loop pulls frames from the callback queue; each frame's RMS energy is
compared with `Config.THRESHOLD`; once speech has started, frames are
appended to `audio_data` until silence has persisted beyond
`Config.SILENCE_LIMIT`, at which point the loop breaks.  We embed a frame as
its RMS energy together with the wall-clock time at which the loop processes
it (the value `time.time()` would return there); sample payloads are
irrelevant to the control flow, so a frame stands for its own payload. -/

/-- `Config.THRESHOLD` (line 20), the value 0.03. -/
def THRESHOLD : ℚ := mkRat 3 100

/-- `Config.SILENCE_LIMIT` (line 21). -/
def SILENCE_LIMIT : ℚ := 2

/-- An audio frame, reduced to what the capture loop inspects: its RMS
energy (`np.sqrt(np.mean(data**2))`, line 64) and the time at which the
loop processes it. -/
structure Frame where
  rms : ℚ
  t : ℚ
  deriving DecidableEq, Repr

/-- The loop-carried state of `listen`: `silence_start` and
`speaking_started` (lines 55-56). -/
structure CaptureState where
  silenceStart : Option ℚ
  speaking : Bool
  deriving DecidableEq, Repr

/-- The state update performed on one frame by the body of the `while` loop
(lines 64-73): above-threshold energy marks speech and clears
`silence_start`; below-threshold energy while speaking starts the silence
clock; an expired silence clock breaks the loop with the state unchanged. -/
def stepState (st : CaptureState) (f : Frame) : CaptureState :=
  if f.rms > THRESHOLD then ⟨none, true⟩
  else if st.speaking then
    match st.silenceStart with
    | none => ⟨some f.t, true⟩
    | some _ => st
  else st

/-- The frames the loop collects into `audio_data` from a given loop state
onward (lines 64-76).  Mirrors the loop body: flag updates first, then the
break test, then `if speaking_started: audio_data.append(data)`; the frame
that trips the silence limit is not appended, and nothing after it is
processed.  An exhausted input list stands for the loop being terminated
externally with no further frames delivered. -/
def capture (sil : Option ℚ) (spk : Bool) : List Frame → List Frame
  | [] => []
  | f :: rest =>
    if f.rms > THRESHOLD then f :: capture none true rest
    else if spk then
      match sil with
      | none => f :: capture (some f.t) true rest
      | some s => if f.t - s > SILENCE_LIMIT then [] else f :: capture sil true rest
    else capture sil spk rest

/-- `listen` at the capture level: run the loop from the initial state
(`audio_data = []`, `silence_start = None`, `speaking_started = False`) and
return `none` when nothing was captured (`if not audio_data: return None`,
line 81), otherwise the captured Utterance. -/
def listen (frames : List Frame) : Option (List Frame) :=
  let data := capture none false frames
  if data = [] then none else some data

/-- The number of frames the speaking-phase loop keeps before the silence
cutoff: counting from the current state, the index of the first frame whose
arrival finds the silence clock expired (`time.time() - silence_start >
SILENCE_LIMIT`), or the input length if no frame trips it.  This is the
cut position used to state which frames the Utterance contains. -/
def cutIndex (sil : Option ℚ) : List Frame → Nat
  | [] => 0
  | f :: rest =>
    if f.rms > THRESHOLD then cutIndex none rest + 1
    else
      match sil with
      | none => cutIndex (some f.t) rest + 1
      | some s => if f.t - s > SILENCE_LIMIT then 0 else cutIndex sil rest + 1

/-! ## Text cleanup (`JarvisMouth._clean`, lines 139-142)

`_clean` applies three regex substitutions in order: strip the markdown
markers `**`, `__`, `*`; replace every non-greedy ``` fenced block with
`'Code block omitted.'`; collapse whitespace runs to single spaces and
strip the ends. -/

/-- The backtick character, used by the fenced-code-block pattern. -/
def backtick : Char := Char.ofNat 96

/-- `re.sub(r'\*\*|__|\*', '', text)` (line 140): at each position try the
alternatives in order, deleting the match; otherwise keep the character. -/
def stripMarkers : List Char → List Char
  | [] => []
  | '*' :: '*' :: rest => stripMarkers rest
  | '_' :: '_' :: rest => stripMarkers rest
  | '*' :: rest => stripMarkers rest
  | c :: rest => c :: stripMarkers rest

/-- Split a character list at its first occurrence of ``` (three
backticks): returns the part before the triple and the part after it. -/
def splitTriple : List Char → Option (List Char × List Char)
  | a :: b :: c :: rest =>
    if a = backtick && b = backtick && c = backtick then some ([], rest)
    else
      match splitTriple (b :: c :: rest) with
      | some (bf, af) => some (a :: bf, af)
      | none => none
  | _ => none

/-- The replacement text of the fenced-block substitution (line 141). -/
def omittedText : List Char := "Code block omitted.".data

/-- Fuelled worker for `re.sub(r'```.*?```', 'Code block omitted.', text,
flags=re.DOTALL)` (line 141): repeatedly find the leftmost ``` and the
nearest following ``` (the non-greedy closing), replace the whole match,
and continue after it; if no closing triple exists there is no match at
all and the text is returned unchanged.  Each replacement consumes at
least six characters, so fuel `cs.length` never runs out. -/
def codeBlockSubF : Nat → List Char → List Char
  | 0, cs => cs
  | fuel + 1, cs =>
    match splitTriple cs with
    | none => cs
    | some (bf, af1) =>
      match splitTriple af1 with
      | none => cs
      | some (_, af2) => bf ++ omittedText ++ codeBlockSubF fuel af2

/-- `re.sub(r'```.*?```', 'Code block omitted.', text, flags=re.DOTALL)`. -/
def codeBlockSub (cs : List Char) : List Char :=
  codeBlockSubF cs.length cs

/-- `re.sub(r'\s+', ' ', text)` (line 142): every maximal whitespace run
becomes a single space.  `inWs` records being inside a run already. -/
def collapseWs (inWs : Bool) : List Char → List Char
  | [] => []
  | c :: rest =>
    if isWs c then
      if inWs then collapseWs true rest else ' ' :: collapseWs true rest
    else c :: collapseWs false rest

/-- Python `str.strip()`: drop whitespace from both ends. -/
def stripEnds (cs : List Char) : List Char :=
  ((cs.dropWhile isWs).reverse.dropWhile isWs).reverse

/-- `JarvisMouth._clean` (lines 139-142): the three substitutions in the
order the code applies them, then `strip()`. -/
def cleanText (cs : List Char) : List Char :=
  stripEnds (collapseWs false (codeBlockSub (stripMarkers cs)))

/-- `JarvisMouth.speak` (lines 131-134) acting on the job queue: enqueue the
cleaned text only when it is non-empty (`if cleaned:`). -/
def speakQueue (q : List (List Char)) (text : List Char) : List (List Char) :=
  let cleaned := cleanText text
  if cleaned = [] then q else q ++ [cleaned]

/-! ## Speech Queue Engine and Interrupt Controller (`JarvisMouth`)

The shared state the worker thread and `stop_talking` touch is the `active`
flag, the job queue, and the playback loop position inside `_play_chunked`.
We embed the interleaving of the two threads as a small-step semantics over
that state.  A playback buffer is tagged with the job it was synthesized
from, so that "sub-chunks from that buffer" is expressible; the worker's
sub-chunk writes are recorded in `written` and the jobs it has handed to
the synthesizer in `synthd`.  Synthesis itself is an external collaborator,
embedded as a function from job text to its list of sub-chunks. -/

/-- A playback job is the cleaned sentence text (line 134). -/
abbrev Job := String

/-- One atomic step of either thread:
* `pop` — the worker's `queue.get` plus its `if self.active` check
  (lines 147-151): when active, the job is handed to `_play_chunked`
  (synthesis starts); when inactive, the job is popped and dropped.
* `write` — one iteration of the sub-chunk loop of `_play_chunked`
  (lines 182-192): the `if not self.active: break` check followed by
  `s.write(chunk)`.
* `enq` — `speak` enqueueing a cleaned job (line 134).
* `deact`, `clearQ`, `react` — the three effects of `stop_talking`
  (lines 124-129): `self.active = False`, clearing the queue under its
  mutex, and `self.active = True`. -/
inductive Ev where
  | pop
  | write
  | enq (j : Job)
  | deact
  | clearQ
  | react
  deriving DecidableEq, Repr

/-- The shared engine state: the `active` flag, the job queue, the playback
position (`playing = some (j, cs)` means the buffer of job `j` still has
sub-chunks `cs` to write), the trace of sub-chunks the output device has
received, and the trace of jobs handed to synthesis. -/
structure Engine where
  active : Bool
  jobs : List Job
  playing : Option (Job × List Nat)
  written : List (Job × Nat)
  synthd : List Job
  deriving DecidableEq, Repr

/-- The transition function of the engine; `synth` is the synthesis
collaborator giving each job its sub-chunks. -/
def stepE (synth : Job → List Nat) (s : Engine) : Ev → Engine
  | .write =>
    match s.playing with
    | some (j, c :: cs) =>
      if s.active then
        { s with written := s.written ++ [(j, c)], playing := some (j, cs) }
      else { s with playing := none }
    | some (_, []) => { s with playing := none }
    | none => s
  | .pop =>
    match s.playing, s.jobs with
    | none, j :: rest =>
      if s.active then
        { s with jobs := rest, synthd := s.synthd ++ [j], playing := some (j, synth j) }
      else { s with jobs := rest }
    | _, _ => s
  | .enq j => { s with jobs := s.jobs ++ [j] }
  | .deact => { s with active := false }
  | .clearQ => { s with jobs := [] }
  | .react => { s with active := true }

/-- Run a list of steps. -/
def runE (synth : Job → List Nat) (s : Engine) (es : List Ev) : Engine :=
  es.foldl (stepE synth) s

/-- `JarvisMouth.stop_talking` (lines 122-129) as its three engine effects
in program order: deactivate, clear the queue, reactivate. -/
def stopTalking (synth : Job → List Nat) (s : Engine) : Engine :=
  stepE synth (stepE synth (stepE synth s Ev.deact) Ev.clearQ) Ev.react

/-- The sub-chunks of job `j`'s buffer that the output device has received
in state `s`. -/
def writtenFor (j : Job) (s : Engine) : List (Job × Nat) :=
  s.written.filter (fun p => p.1 == j)

/-- How many times job `j` has been handed to the synthesizer in state `s`. -/
def synthCount (j : Job) (s : Engine) : Nat :=
  s.synthd.count j

/-! ## Worker fault handling (`JarvisMouth._worker` / `_play_chunked`)

`_play_chunked` wraps synthesis and playback in `try/except Exception`
(lines 163-195), turning any per-job fault into a `[PLAYBACK ERROR]` log
line; `_worker` (lines 144-156) additionally catches any `Exception` of a
loop iteration and continues.  Exceptions are embedded as an explicit
outcome value of the synthesis/playback of one job. -/

/-- What synthesis/playback of one job does: either produce audio or raise
an exception carrying a message. -/
inductive SynthOutcome where
  | audio (chunks : List Nat)
  | raises (msg : String)
  deriving DecidableEq, Repr

/-- A job together with the behaviour of its synthesis/playback. -/
structure PlaybackJob where
  text : String
  outcome : SynthOutcome
  deriving DecidableEq, Repr

/-- The body of `_play_chunked`'s `try` block, as the `Except` value it
produces: faults propagate to the handler as `error`. -/
def playBody (j : PlaybackJob) : Except String Unit :=
  match j.outcome with
  | .audio _ => Except.ok ()
  | .raises m => Except.error m

/-- `_play_chunked` (lines 158-195): the `except Exception` handler catches
any fault of the body and logs `[PLAYBACK ERROR] ...` (line 195); nothing
propagates to the caller.  Returns the log lines produced. -/
def playChunked (j : PlaybackJob) : List String :=
  match playBody j with
  | Except.ok _ => []
  | Except.error m => ["[PLAYBACK ERROR] " ++ m]

/-- The consumer loop of `_worker` (lines 144-156) over the jobs it pops,
collecting the log lines and counting the jobs it fully processed.  Because
`playChunked` never propagates a fault, every job is processed and the loop
reaches the next job. -/
def workerRun : List PlaybackJob → List String × Nat
  | [] => ([], 0)
  | j :: rest =>
    let logs := playChunked j
    let r := workerRun rest
    (logs ++ r.1, r.2 + 1)

/-! ## Volume scaling and sub-chunk padding (`_play_chunked`, lines 174-192)

The synthesis output is int16; the code divides by 32768.0 and multiplies
by `Config.VOLUME`, then writes sub-chunks of `Config.CHUNK_SIZE` samples,
zero-padding the last one.  Sample values are embedded as rationals. -/

/-- `Config.CHUNK_SIZE` (line 25). -/
def CHUNK_SIZE : Nat := 2048

/-- int16 → float conversion of line 176: `audio_int16 / 32768.0`. -/
def int16ToFloat (x : ℤ) : ℚ :=
  (x : ℚ) / 32768

/-- Lines 175-177: convert every int16 sample and scale by the volume. -/
def scaleSamples (vol : ℚ) (xs : List ℤ) : List ℚ :=
  xs.map (fun x => int16ToFloat x * vol)

/-- Line 190: zero-pad a chunk up to `CHUNK_SIZE` samples. -/
def padChunk (chunk : List ℚ) : List ℚ :=
  chunk ++ List.replicate (CHUNK_SIZE - chunk.length) 0

/-- The padded sub-chunk starting at offset `i` of the scaled buffer
(lines 187-190): `audio_float32[i : i + CHUNK_SIZE]`, padded if short. -/
def subChunk (audio : List ℚ) (i : Nat) : List ℚ :=
  padChunk ((audio.drop i).take CHUNK_SIZE)

/-- A concrete synthesis collaborator used to instantiate the engine
semantics at concrete inputs: every job synthesizes to one sub-chunk. -/
def synthOne : Job → List Nat :=
  fun _ => [0]

/-! # Theorems -/

/-- Claim C3: given the deltas `["Hello.", " How are you", "? Fine."]`
followed by end of stream, the segmenter emits exactly the three
SentenceUnits `"Hello."`, `"How are you?"`, `"Fine."` in that order
(the third being the remainder flushed at stream end), none empty and
none duplicated. -/
theorem greeting_stream_three_units :
    segmentStrings ["Hello.", " How are you", "? Fine."]
      = ["Hello.", "How are you?", "Fine."]
    ∧ (segmentStrings ["Hello.", " How are you", "? Fine."]).Nodup := by
  exact ⟨by decide, by decide⟩

/-- Claim C2, counterexample: the single delta `"Hi!Bye!"` contains two
sentence-terminal characters, yet the segmenter yields exactly one
SentenceUnit from it (nothing is emitted in the pass, and the whole text is
flushed at stream end), because the split boundary requires whitespace
after the terminator.  This refutes the claim that every delta with two
terminal characters splits into multiple units and yields two units. -/
theorem two_terminators_single_unit :
    segmentStrings ["Hi!Bye!"] = ["Hi!Bye!"]
    ∧ (segmentStrings ["Hi!Bye!"]).length = 1
    ∧ (procDelta [] "Hi!Bye!".data).1 = [] := by
  exact ⟨by decide, by decide, by decide⟩

/-- Claim C2, amended: for the delta `"Hi! Bye!"` (terminator followed by
whitespace inside the delta), the one-pass split produces both units:
`"Hi!"` is emitted immediately from that delta, `"Bye!"` is retained as the
remainder and emitted at end of stream, so the one delta yields the two
SentenceUnits `"Hi!"` and `"Bye!"` in total. -/
theorem hi_bye_delta_two_units :
    procDelta [] "Hi! Bye!".data = (["Hi!".data], "Bye!".data)
    ∧ segmentStrings ["Hi! Bye!"] = ["Hi!", "Bye!"] := by
  exact ⟨by decide, by decide⟩

/-- With `speaking_started` still false, sub-threshold frames are skipped
and nothing is ever collected. -/
theorem capture_silent (frames : List Frame)
    (h : ∀ f ∈ frames, f.rms ≤ THRESHOLD) :
    ∀ sil, capture sil false frames = [] := by
  induction frames with
  | nil => intro _; rfl
  | cons f rest ih =>
    intro sil
    have hf : ¬ f.rms > THRESHOLD := not_lt.mpr (h f (by simp))
    have hrest : ∀ g ∈ rest, g.rms ≤ THRESHOLD := fun g hg => h g (by simp [hg])
    simpa [capture, hf] using ih hrest sil

/-- Claim C4: for every input frame sequence in which the RMS energy of
every frame never exceeds `THRESHOLD`, `listen` returns no utterance. -/
theorem listen_silent_none (frames : List Frame)
    (h : ∀ f ∈ frames, f.rms ≤ THRESHOLD) :
    listen frames = none := by
  simp [listen, capture_silent frames h]

/-- Claim C4, witness: a concrete two-frame all-quiet sequence captures
nothing. -/
theorem listen_silent_none_witness :
    listen [⟨mkRat 1 100, 0⟩, ⟨mkRat 2 100, 1⟩] = none :=
  listen_silent_none _ (by decide)

/-- Claim C10: `speak` enqueues a job only when the text is non-empty after
cleanup; text cleaning to the empty string leaves the queue unchanged, and
a queue with no empty-text job never acquires one. -/
theorem speak_no_empty_job (q : List (List Char)) (text : List Char) :
    (cleanText text = [] → speakQueue q text = q)
    ∧ ((∀ j ∈ q, j ≠ []) → ∀ j ∈ speakQueue q text, j ≠ []) := by
  constructor
  · intro h
    simp [speakQueue, h]
  · intro hq j hj
    by_cases h : cleanText text = []
    · exact hq j (by simpa [speakQueue, h] using hj)
    · have : j ∈ q ∨ j = cleanText text := by
        simpa [speakQueue, h] using hj
      rcases this with h1 | h1
      · exact hq j h1
      · rw [h1]; exact h

/-- Claim C10, witness: the text `"** **"` cleans to the empty string, and
speaking it leaves the empty queue unchanged. -/
theorem speak_no_empty_job_witness :
    speakQueue [] ("** **".data) = [] :=
  (speak_no_empty_job [] ("** **".data)).1 (by decide)

/-- Claim C8: calling `stop_talking` twice in quick succession leaves the
engine in exactly the state one call leaves it in, namely re-activated with
an empty job queue. -/
theorem stop_talking_idempotent (synth : Job → List Nat) (s : Engine) :
    stopTalking synth (stopTalking synth s) = stopTalking synth s
    ∧ (stopTalking synth s).active = true
    ∧ (stopTalking synth s).jobs = [] :=
  ⟨rfl, rfl, rfl⟩

/-- Claim C9: the consumer loop processes every job regardless of per-job
faults — a job whose synthesis or playback raises is caught and logged as a
`[PLAYBACK ERROR]` line, and the loop reaches every following job. -/
theorem worker_survives_job_faults (jobs : List PlaybackJob) :
    (workerRun jobs).2 = jobs.length
    ∧ ∀ j ∈ jobs, ∀ m, j.outcome = SynthOutcome.raises m →
        ("[PLAYBACK ERROR] " ++ m) ∈ (workerRun jobs).1 := by
  induction jobs with
  | nil => exact ⟨rfl, by simp⟩
  | cons j rest ih =>
    refine ⟨by simp [workerRun, ih.1], ?_⟩
    intro x hx m hm
    rcases List.mem_cons.mp hx with h1 | h1
    · subst h1
      simp [workerRun, playChunked, playBody, hm]
    · have := ih.2 x h1 m hm
      simp [workerRun]
      tauto

/-- Claim C9, witness: a two-job run in which the first job raises still
processes both jobs and logs the fault. -/
theorem worker_survives_job_faults_witness :
    (workerRun [⟨"a", SynthOutcome.raises "boom"⟩, ⟨"b", SynthOutcome.audio [1]⟩]).2 = 2
    ∧ ("[PLAYBACK ERROR] " ++ "boom")
        ∈ (workerRun [⟨"a", SynthOutcome.raises "boom"⟩, ⟨"b", SynthOutcome.audio [1]⟩]).1 :=
  ⟨(worker_survives_job_faults _).1,
   (worker_survives_job_faults _).2 ⟨"a", SynthOutcome.raises "boom"⟩ (by decide) "boom" rfl⟩

/-- One step of the capture loop preserves the auxiliary invariant that a
running silence clock implies speech has started. -/
theorem stepState_speaking_of_silence (st : CaptureState) (f : Frame)
    (h : st.silenceStart.isSome = true → st.speaking = true) :
    (stepState st f).silenceStart.isSome = true → (stepState st f).speaking = true := by
  unfold stepState
  by_cases hf : f.rms > THRESHOLD
  · simp [hf]
  · cases hs : st.speaking with
    | true =>
      cases hsil : st.silenceStart with
      | none => simp [hf, hs, hsil]
      | some s => simp [hf, hs, hsil]
    | false =>
      simpa [hf, hs] using h

/-- The auxiliary invariant holds along any fold of the capture loop. -/
theorem foldl_speaking_of_silence (frames : List Frame) :
    ∀ st : CaptureState, (st.silenceStart.isSome = true → st.speaking = true) →
      (List.foldl stepState st frames).silenceStart.isSome = true →
      (List.foldl stepState st frames).speaking = true := by
  induction frames with
  | nil => intro st h; simpa using h
  | cons f rest ih =>
    intro st h
    simpa using ih (stepState st f) (stepState_speaking_of_silence st f h)

/-- Claim C5: in every state the capture loop reaches from its initial
state, after processing a further frame `f`, `silence_start` is non-None
only if speech has started and `f`'s energy is at or below `THRESHOLD`,
and any frame whose energy exceeds `THRESHOLD` clears `silence_start`. -/
theorem capture_state_invariant (frames : List Frame) (f : Frame) :
    ((stepState (List.foldl stepState ⟨none, false⟩ frames) f).silenceStart.isSome = true →
        (stepState (List.foldl stepState ⟨none, false⟩ frames) f).speaking = true
        ∧ f.rms ≤ THRESHOLD)
    ∧ (f.rms > THRESHOLD →
        (stepState (List.foldl stepState ⟨none, false⟩ frames) f).silenceStart = none) := by
  have hinv : (List.foldl stepState ⟨none, false⟩ frames).silenceStart.isSome = true →
      (List.foldl stepState ⟨none, false⟩ frames).speaking = true :=
    foldl_speaking_of_silence frames ⟨none, false⟩ (by simp)
  constructor
  · intro hsome
    refine ⟨stepState_speaking_of_silence _ f hinv hsome, ?_⟩
    by_contra hgt
    have hf : f.rms > THRESHOLD := not_le.mp hgt
    rw [show stepState (List.foldl stepState ⟨none, false⟩ frames) f = ⟨none, true⟩ from by
      unfold stepState; simp [hf]] at hsome
    simp at hsome
  · intro hf
    unfold stepState
    simp [hf]

/-- Claim C5, witness: after one loud frame, a quiet frame that exceeds
nothing is not what clears the clock — a loud frame does: processing a
further loud frame leaves `silence_start` cleared. -/
theorem capture_state_invariant_witness :
    (stepState (List.foldl stepState ⟨none, false⟩ [⟨mkRat 5 100, 0⟩])
        ⟨mkRat 8 100, 1⟩).silenceStart = none :=
  (capture_state_invariant [⟨mkRat 5 100, 0⟩] ⟨mkRat 8 100, 1⟩).2 (by decide)

/-- Quiet frames before speech starts are skipped without affecting what
the loop later collects. -/
theorem capture_skip (pre : List Frame) (hpre : ∀ p ∈ pre, p.rms ≤ THRESHOLD)
    (rest : List Frame) :
    capture none false (pre ++ rest) = capture none false rest := by
  induction pre with
  | nil => rfl
  | cons p ps ih =>
    have hp : ¬ p.rms > THRESHOLD := not_lt.mpr (hpre p (by simp))
    have hps : ∀ q ∈ ps, q.rms ≤ THRESHOLD := fun q hq => hpre q (by simp [hq])
    simpa [capture, hp] using ih hps

/-- While speaking, the loop keeps exactly the frames before the silence
cutoff position. -/
theorem capture_take (frames : List Frame) :
    ∀ sil, capture sil true frames = frames.take (cutIndex sil frames) := by
  induction frames with
  | nil => intro _; rfl
  | cons f rest ih =>
    intro sil
    by_cases hf : f.rms > THRESHOLD
    · simp [capture, cutIndex, hf, ih none]
    · cases sil with
      | none => simp [capture, cutIndex, hf, ih (some f.t)]
      | some s =>
        by_cases hb : f.t - s > SILENCE_LIMIT
        · simp [capture, cutIndex, hf, hb]
        · simp [capture, cutIndex, hf, hb, ih (some s)]

/-- The frame sitting at the cutoff position, when it exists, is a
sub-threshold frame (it is the frame that trips the silence limit); out of
range the default quiet frame makes the bound trivial. -/
theorem cut_frame_low (frames : List Frame) :
    ∀ sil, (frames.getD (cutIndex sil frames) ⟨0, 0⟩).rms ≤ THRESHOLD := by
  induction frames with
  | nil =>
    intro _
    show (0 : ℚ) ≤ THRESHOLD
    decide
  | cons f rest ih =>
    intro sil
    by_cases hf : f.rms > THRESHOLD
    · simpa [cutIndex, hf] using ih none
    · cases sil with
      | none => simpa [cutIndex, hf] using ih (some f.t)
      | some s =>
        by_cases hb : f.t - s > SILENCE_LIMIT
        · simpa [cutIndex, hf, hb] using not_lt.mp hf
        · simpa [cutIndex, hf, hb] using ih (some s)

/-- Claim C6: for a frame sequence that is quiet, then exceeds `THRESHOLD`
at frame `f0`, the returned Utterance is exactly `f0` followed by the
frames before the silence-cutoff position of the remaining sequence —
sub-threshold frames inside the speaking span are included, the frame that
finds the silence clock expired and everything after it are excluded, and
that cutoff frame (when it exists) is itself sub-threshold. -/
theorem listen_utterance_span (pre : List Frame) (f0 : Frame) (rest : List Frame)
    (hpre : ∀ p ∈ pre, p.rms ≤ THRESHOLD) (h0 : f0.rms > THRESHOLD) :
    listen (pre ++ f0 :: rest) = some (f0 :: rest.take (cutIndex none rest))
    ∧ (rest.getD (cutIndex none rest) ⟨0, 0⟩).rms ≤ THRESHOLD := by
  refine ⟨?_, cut_frame_low rest none⟩
  unfold listen
  rw [capture_skip pre hpre]
  simp [capture, h0, capture_take]

/-- Claim C6, witness: one quiet frame, one loud frame, then quiet frames
whose timing trips the silence limit, evaluated concretely. -/
theorem listen_utterance_span_witness :
    listen ([⟨mkRat 1 100, 0⟩] ++ ⟨mkRat 5 100, 1⟩ :: [⟨mkRat 1 100, 2⟩, ⟨mkRat 1 100, 6⟩])
      = some (⟨mkRat 5 100, 1⟩ ::
          List.take (cutIndex none [⟨mkRat 1 100, 2⟩, ⟨mkRat 1 100, 6⟩])
            [⟨mkRat 1 100, 2⟩, ⟨mkRat 1 100, 6⟩])
    ∧ (List.getD ([⟨mkRat 1 100, 2⟩, ⟨mkRat 1 100, 6⟩] : List Frame)
          (cutIndex none [⟨mkRat 1 100, 2⟩, ⟨mkRat 1 100, 6⟩]) (⟨0, 0⟩ : Frame)).rms
        ≤ THRESHOLD :=
  listen_utterance_span ([⟨mkRat 1 100, 0⟩] : List Frame) (⟨mkRat 5 100, 1⟩ : Frame)
    ([⟨mkRat 1 100, 2⟩, ⟨mkRat 1 100, 6⟩] : List Frame) (by decide) (by decide)

/-- A property holding for every element of a list and for the default
value holds for any `getD` lookup. -/
theorem getD_of_all {α : Type} (P : α → Prop) :
    ∀ (l : List α) (k : Nat) (d : α), (∀ y ∈ l, P y) → P d → P (l.getD k d)
  | [], k, d, _, hd => by simpa [List.getD] using hd
  | a :: l, 0, d, h, _ => by simpa using h a (by simp)
  | a :: l, k + 1, d, h, hd => by
    simpa using getD_of_all P l k d (fun y hy => h y (by simp [hy])) hd

/-- Claim C7: for int16 synthesis output and any master volume in `[0, 1]`,
every sample of every padded sub-chunk of the volume-scaled float buffer
lies in `[-1, 1]` — the zero padding of the final sub-chunk included. -/
theorem scaled_output_in_range (vol : ℚ) (xs : List ℤ) (i : Nat)
    (h0 : 0 ≤ vol) (h1 : vol ≤ 1)
    (hx : ∀ x ∈ xs, -32768 ≤ x ∧ x ≤ 32767) :
    ∀ k : Nat, -1 ≤ (subChunk (scaleSamples vol xs) i).getD k 0
      ∧ (subChunk (scaleSamples vol xs) i).getD k 0 ≤ 1 := by
  intro k
  have hall : ∀ y ∈ subChunk (scaleSamples vol xs) i, -1 ≤ y ∧ y ≤ 1 := by
    intro y hy
    unfold subChunk padChunk at hy
    rcases List.mem_append.mp hy with hy | hy
    · have hy2 : y ∈ scaleSamples vol xs :=
        List.drop_subset _ _ (List.take_subset _ _ hy)
      rcases List.mem_map.mp hy2 with ⟨x, hmem, rfl⟩
      have hb := hx x hmem
      have hxq1 : (-32768 : ℚ) ≤ (x : ℚ) := by exact_mod_cast hb.1
      have hxq2 : ((x : ℚ)) ≤ 32767 := by exact_mod_cast hb.2
      have h32 : (0 : ℚ) < 32768 := by norm_num
      have ha1 : (-1 : ℚ) ≤ (x : ℚ) / 32768 := by
        rw [le_div_iff₀ h32]; linarith
      have ha2 : ((x : ℚ)) / 32768 ≤ 1 := by
        rw [div_le_one h32]; linarith
      unfold int16ToFloat
      constructor
      · nlinarith [mul_nonneg (by linarith : (0 : ℚ) ≤ (x : ℚ) / 32768 + 1) h0]
      · nlinarith [mul_nonneg (by linarith : (0 : ℚ) ≤ 1 - (x : ℚ) / 32768) h0]
    · have hz : y = 0 := List.eq_of_mem_replicate hy
      simp [hz]
  exact getD_of_all (fun y => -1 ≤ y ∧ y ≤ 1)
    (subChunk (scaleSamples vol xs) i) k 0 hall (by norm_num)

/-- Claim C7, witness: full volume, the extreme int16 samples, the first
sample of the first sub-chunk. -/
theorem scaled_output_in_range_witness :
    -1 ≤ (subChunk (scaleSamples 1 [32767, -32768]) 0).getD 0 0
    ∧ (subChunk (scaleSamples 1 [32767, -32768]) 0).getD 0 0 ≤ 1 :=
  scaled_output_in_range 1 [32767, -32768] 0 (by decide) (by decide) (by decide) 0

/-- With the engine inactive, one playback-loop iteration is exactly the
`if not self.active: break` path: the loop ends, nothing is written. -/
theorem stepE_write_inactive (synth : Job → List Nat) (s : Engine)
    (ha : s.active = false) :
    stepE synth s Ev.write = { s with playing := none } := by
  obtain ⟨a, jobs, playing, written, synthd⟩ := s
  cases ha
  cases playing with
  | none => rfl
  | some p =>
    obtain ⟨j, cs⟩ := p
    cases cs with
    | nil => rfl
    | cons c ct => rfl

/-- Popping from an empty queue is a no-op. -/
theorem stepE_pop_empty (synth : Job → List Nat) (s : Engine)
    (hj : s.jobs = []) :
    stepE synth s Ev.pop = s := by
  obtain ⟨a, jobs, playing, written, synthd⟩ := s
  cases hj
  cases playing with
  | none => rfl
  | some p => rfl

/-- While the engine is inactive with an empty job queue, worker steps
write no sub-chunk, synthesize nothing and keep the queue empty, and as
soon as the playback loop takes one step (a `write`), it breaks:
`playing` is `none` from then on. -/
theorem runE_inactive (synth : Job → List Nat) :
    ∀ (es : List Ev), (∀ e ∈ es, e = Ev.pop ∨ e = Ev.write) →
    ∀ s : Engine, s.active = false → s.jobs = [] →
      (runE synth s es).active = false
      ∧ (runE synth s es).jobs = []
      ∧ (runE synth s es).written = s.written
      ∧ (runE synth s es).synthd = s.synthd
      ∧ ((runE synth s es).playing = s.playing ∨ (runE synth s es).playing = none)
      ∧ (Ev.write ∈ es → (runE synth s es).playing = none) := by
  intro es
  induction es with
  | nil =>
    intro _ s ha hj
    exact ⟨ha, hj, rfl, rfl, Or.inl rfl, fun h => absurd h (List.not_mem_nil _)⟩
  | cons e rest ih =>
    intro hes s ha hj
    have hrest : ∀ x ∈ rest, x = Ev.pop ∨ x = Ev.write :=
      fun x hx => hes x (by simp [hx])
    rcases hes e (by simp) with he | he <;> subst he
    · have hstep : runE synth s (Ev.pop :: rest) = runE synth s rest := by
        show runE synth (stepE synth s Ev.pop) rest = runE synth s rest
        rw [stepE_pop_empty synth s hj]
      obtain ⟨a1, a2, a3, a4, a5, a6⟩ := ih hrest s ha hj
      rw [hstep]
      refine ⟨a1, a2, a3, a4, a5, ?_⟩
      intro hw
      rcases List.mem_cons.mp hw with h | h
      · exact absurd h (by decide)
      · exact a6 h
    · have hstep : runE synth s (Ev.write :: rest)
          = runE synth { s with playing := none } rest := by
        show runE synth (stepE synth s Ev.write) rest = _
        rw [stepE_write_inactive synth s ha]
      obtain ⟨a1, a2, a3, a4, a5, a6⟩ := ih hrest { s with playing := none } ha hj
      rw [hstep]
      refine ⟨a1, a2, a3, a4, ?_, ?_⟩
      · rcases a5 with h | h
        · exact Or.inr h
        · exact Or.inr h
      · intro _
        rcases a5 with h | h
        · exact h
        · exact h

/-- If job `j` is not in the queue, is not the job being played, and is
never enqueued by the remaining events, then the engine never synthesizes
it and the output device never receives a sub-chunk of its buffer. -/
theorem runE_fresh (synth : Job → List Nat) (j : Job) :
    ∀ (es : List Ev), (∀ e ∈ es, e ≠ Ev.enq j) →
    ∀ s : Engine, j ∉ s.jobs → (∀ b, s.playing ≠ some (j, b)) →
      j ∉ (runE synth s es).jobs
      ∧ (∀ b, (runE synth s es).playing ≠ some (j, b))
      ∧ writtenFor j (runE synth s es) = writtenFor j s
      ∧ synthCount j (runE synth s es) = synthCount j s := by
  intro es
  induction es with
  | nil => intro _ s h1 h2; exact ⟨h1, h2, rfl, rfl⟩
  | cons e rest ih =>
    intro hes s h1 h2
    have hrest : ∀ x ∈ rest, x ≠ Ev.enq j := fun x hx => hes x (by simp [hx])
    have key : j ∉ (stepE synth s e).jobs
        ∧ (∀ b, (stepE synth s e).playing ≠ some (j, b))
        ∧ writtenFor j (stepE synth s e) = writtenFor j s
        ∧ synthCount j (stepE synth s e) = synthCount j s := by
      obtain ⟨a, jobs, playing, written, synthd⟩ := s
      cases e with
      | pop =>
        cases playing with
        | some p => exact ⟨h1, h2, rfl, rfl⟩
        | none =>
          cases jobs with
          | nil => exact ⟨h1, h2, rfl, rfl⟩
          | cons jh jt =>
            have hne : j ≠ jh := fun h => h1 (by simp [h])
            have hnt : j ∉ jt := fun h => h1 (by simp [h])
            cases a with
            | false => exact ⟨hnt, h2, rfl, rfl⟩
            | true =>
              refine ⟨hnt, ?_, rfl, ?_⟩
              · intro b hq
                simp [stepE] at hq
                exact hne hq.1.symm
              · simp [stepE, synthCount, List.count_append, hne,
                  List.count_singleton]
      | write =>
        cases playing with
        | none => exact ⟨h1, h2, rfl, rfl⟩
        | some p =>
          obtain ⟨jp, cs⟩ := p
          have hne : jp ≠ j := fun h => h2 cs (by rw [h])
          cases cs with
          | nil =>
            refine ⟨h1, ?_, rfl, rfl⟩
            intro b
            simp [stepE]
          | cons c ct =>
            cases a with
            | false =>
              refine ⟨h1, ?_, rfl, rfl⟩
              intro b
              simp [stepE]
            | true =>
              refine ⟨h1, ?_, ?_, rfl⟩
              · intro b hq
                simp [stepE] at hq
                exact hne hq.1
              · simp [stepE, writtenFor, List.filter_append, hne]
      | enq j2 =>
        have hne : j ≠ j2 := by
          intro h
          exact hes (Ev.enq j2) (by simp) (by rw [h])
        refine ⟨?_, h2, rfl, rfl⟩
        intro h
        rcases List.mem_append.mp h with h | h
        · exact h1 h
        · simp at h
          exact hne h
      | deact => exact ⟨h1, h2, rfl, rfl⟩
      | clearQ => exact ⟨by simp [stepE], h2, rfl, rfl⟩
      | react => exact ⟨h1, h2, rfl, rfl⟩
    obtain ⟨k1, k2, k3, k4⟩ := key
    obtain ⟨r1, r2, r3, r4⟩ := ih hrest (stepE synth s e) k1 k2
    exact ⟨r1, r2, r3.trans k3, r4.trans k4⟩

/-- Claim C1, counterexample: the unconditional guarantee fails.  The code
only sleeps a fixed 0.05 s between clearing the queue and reactivating, and
a blocking sub-chunk write can outlast that, so the schedule in which the
worker takes no playback-loop step during the cooldown is possible.  In
that schedule (`stop_talking` runs to completion while job `"b"`'s buffer
is mid-write, with no worker step in between), the worker's next check
sees `active` true again and the output device receives a further
sub-chunk of that same buffer: `("b", 7)` is written after the interrupt
has completed. -/
theorem interrupt_missed_cooldown_cex :
    writtenFor "b"
        (runE synthOne
          (stepE synthOne
            (runE synthOne
              (stepE synthOne
                (stepE synthOne
                  (⟨true, ["a"], some ("b", [7]), [("b", 6)], ["b"]⟩ : Engine)
                  Ev.deact)
                Ev.clearQ)
              [])
            Ev.react)
          [Ev.write])
      = [("b", 6), ("b", 7)]
    ∧ writtenFor "b" (⟨true, ["a"], some ("b", [7]), [("b", 6)], ["b"]⟩ : Engine)
      = [("b", 6)] := by
  exact ⟨by decide, by decide⟩

/-- Claim C1, amended: suppose `stop_talking` runs while the buffer of job
`j0` is mid-write (its three effects happen in program order: deactivate,
clear the queue, reactivate), and the cooldown does let the worker take at
least one playback-loop step while the engine is inactive — hypothesis
`hobs`, the intent of the `time.sleep(0.05)` though not ensured by it.
Then the output device never receives another sub-chunk of that buffer
(provided `j0` is not re-enqueued afterwards), and every job that was in
the queue at the moment of the interrupt and is not re-enqueued afterwards
is never synthesized. -/
theorem interrupt_isolates_buffer_and_queue
    (synth : Job → List Nat) (s0 : Engine) (j0 : Job) (buf : List Nat)
    (es1 es2 : List Ev)
    (hplay : s0.playing = some (j0, buf))
    (hes1 : ∀ e ∈ es1, e = Ev.pop ∨ e = Ev.write)
    (hobs : Ev.write ∈ es1)
    (hfresh : ∀ e ∈ es2, e ≠ Ev.enq j0) :
    writtenFor j0
        (runE synth
          (stepE synth
            (runE synth (stepE synth (stepE synth s0 Ev.deact) Ev.clearQ) es1)
            Ev.react)
          es2)
      = writtenFor j0 s0
    ∧ ∀ j ∈ s0.jobs, (∀ e ∈ es2, e ≠ Ev.enq j) →
        synthCount j
            (runE synth
              (stepE synth
                (runE synth (stepE synth (stepE synth s0 Ev.deact) Ev.clearQ) es1)
                Ev.react)
              es2)
          = synthCount j s0 := by
  obtain ⟨a3, j3, w3, sy3, _, p3⟩ :=
    runE_inactive synth es1 hes1
      (stepE synth (stepE synth s0 Ev.deact) Ev.clearQ) rfl rfl
  have hnone : (runE synth (stepE synth (stepE synth s0 Ev.deact) Ev.clearQ) es1).playing
      = none := p3 hobs
  constructor
  · obtain ⟨_, _, f3, _⟩ :=
      runE_fresh synth j0 es2 hfresh
        (stepE synth
          (runE synth (stepE synth (stepE synth s0 Ev.deact) Ev.clearQ) es1)
          Ev.react)
        (show j0 ∉ (runE synth (stepE synth (stepE synth s0 Ev.deact) Ev.clearQ)
            es1).jobs by simp [j3])
        (show ∀ b, (runE synth (stepE synth (stepE synth s0 Ev.deact) Ev.clearQ)
            es1).playing ≠ some (j0, b) by simp [hnone])
    rw [f3]
    show writtenFor j0
        (runE synth (stepE synth (stepE synth s0 Ev.deact) Ev.clearQ) es1)
      = writtenFor j0 s0
    unfold writtenFor
    rw [w3]
    rfl
  · intro j hj hfr
    obtain ⟨_, _, _, c3⟩ :=
      runE_fresh synth j es2 hfr
        (stepE synth
          (runE synth (stepE synth (stepE synth s0 Ev.deact) Ev.clearQ) es1)
          Ev.react)
        (show j ∉ (runE synth (stepE synth (stepE synth s0 Ev.deact) Ev.clearQ)
            es1).jobs by simp [j3])
        (show ∀ b, (runE synth (stepE synth (stepE synth s0 Ev.deact) Ev.clearQ)
            es1).playing ≠ some (j, b) by simp [hnone])
    rw [c3]
    show synthCount j
        (runE synth (stepE synth (stepE synth s0 Ev.deact) Ev.clearQ) es1)
      = synthCount j s0
    unfold synthCount
    rw [sy3]
    rfl

/-- Claim C1 (amended), witness: a concrete engine mid-write on job `"b"`'s buffer
with job `"a"` queued; the interrupt runs, the worker observes it during
the cooldown, then runs on: no further `"b"` sub-chunk is written. -/
theorem interrupt_isolates_witness :
    writtenFor "b"
        (runE synthOne
          (stepE synthOne
            (runE synthOne
              (stepE synthOne
                (stepE synthOne
                  (⟨true, ["a"], some ("b", [7]), [("b", 6)], ["b"]⟩ : Engine)
                  Ev.deact)
                Ev.clearQ)
              [Ev.write])
            Ev.react)
          [Ev.pop, Ev.write])
      = writtenFor "b" (⟨true, ["a"], some ("b", [7]), [("b", 6)], ["b"]⟩ : Engine) :=
  (interrupt_isolates_buffer_and_queue synthOne
    (⟨true, ["a"], some ("b", [7]), [("b", 6)], ["b"]⟩ : Engine) "b" [7]
    [Ev.write] [Ev.pop, Ev.write] rfl (by decide) (by decide) (by decide)).1

end StarkJr
